import Mathlib

/-!
Shallow embedding of the `lb64` Base64 library (src/config.rs, src/error.rs,
src/encode.rs, src/decode.rs, src/lib.rs) together with theorems settling the
claims about its specification.

Rust `u128` values are modelled as `Nat` with explicit bounds `≤ U128_MAX`
where overflow matters; Rust checked arithmetic is modelled by `Option`-valued
functions; Rust `while` loops are modelled either by an equivalent closed form
(push-until-length loops) or by fuel-indexed structural recursion with fuel
chosen large enough that it is never exhausted (padding loops, division loops);
lemmas below justify the loop reading.  Byte values are `Nat`s below 256.
-/

namespace LB64

/-- Errors raised while building a `Config` (src/error.rs `ConfigError`). -/
inductive ConfigError
  | CharacterSetLengthError
  | NotUniquePaddingError
  | DuplicateCharacterError
  | CharacterSetUnrepresentableCharacter
  | PaddingUnrepresentableCharacter
deriving DecidableEq, Repr

/-- Errors raised while constructing or decoding a Base64 value
(src/error.rs `Base64Error`). -/
inductive Base64Error
  | OverflowError
  | InvalidBase64CharacterError
deriving DecidableEq, Repr

/-- src/config.rs `Config`: character set, optional pad, optional line length
(`u8` modelled as a plain `Nat`). -/
structure Config where
  character_set : List Char
  pad : Option Char
  line_length : Option Nat
deriving DecidableEq, Repr

/-- Rust `char::is_control`: the Unicode `Cc` category, i.e. code points
U+0000..U+001F and U+007F..U+009F. -/
def char_is_control (c : Char) : Bool :=
  c.toNat < 32 || (127 ≤ c.toNat && c.toNat ≤ 159)

/-- src/config.rs `is_representable`.  Note the source computes
`let u: u16 = c as u16;`, truncating the code point to 16 bits, before the
numeric comparisons; `is_control` is evaluated on the full character. -/
def is_representable (c : Char) : Bool :=
  let u : Nat := c.toNat % 65536
  decide (u > 31) && decide (u ≠ 127) && decide (u ≠ 32) && ! char_is_control c

/-- src/config.rs `check_unique_pad`: true when the candidate pad does not
occur in the character set. -/
def check_unique_pad (set : List Char) (v : Char) : Bool :=
  ! set.contains v

/-- src/config.rs `are_duplicates`: scans all pairs `i < j`. -/
def are_duplicates : List Char → Bool
  | [] => false
  | c :: rest => rest.contains c || are_duplicates rest

/-- src/config.rs `character_set_is_representable`. -/
def character_set_is_representable (set : List Char) : Bool :=
  set.all is_representable

/-- src/config.rs `Config::new`: validation chain in source order. -/
def Config.new (set : List Char) (pad_char : Option Char) (len : Option Nat) :
    Except ConfigError Config :=
  if set.length ≠ 64 then .error .CharacterSetLengthError
  else if pad_char.any (fun p => ! check_unique_pad set p) then
    .error .NotUniquePaddingError
  else if ! character_set_is_representable set then
    .error .CharacterSetUnrepresentableCharacter
  else if pad_char.any (fun p => ! is_representable p) then
    .error .PaddingUnrepresentableCharacter
  else if are_duplicates set then .error .DuplicateCharacterError
  else .ok { character_set := set, pad := pad_char, line_length := len }

/-- src/config.rs `Config::set_padding`, modelled as returning the updated
config.  The representability test in the source reads
`pad_char.is_some() && is_representable(pad_char.unwrap())` — with no `!` —
so it errors exactly when the pad IS representable. -/
def Config.set_padding (conf : Config) (pad_char : Option Char) :
    Except ConfigError Config :=
  if pad_char.any (fun p => ! check_unique_pad conf.character_set p) then
    .error .NotUniquePaddingError
  else if pad_char.any (fun p => is_representable p) then
    .error .PaddingUnrepresentableCharacter
  else .ok { conf with pad := pad_char }

/-- The RFC 4648 standard alphabet shared by `STANDARD` and `MIME`. -/
def standard_character_set : List Char :=
  ['A', 'B', 'C', 'D', 'E', 'F', 'G', 'H', 'I', 'J', 'K', 'L', 'M', 'N', 'O',
   'P', 'Q', 'R', 'S', 'T', 'U', 'V', 'W', 'X', 'Y', 'Z', 'a', 'b', 'c', 'd',
   'e', 'f', 'g', 'h', 'i', 'j', 'k', 'l', 'm', 'n', 'o', 'p', 'q', 'r', 's',
   't', 'u', 'v', 'w', 'x', 'y', 'z', '0', '1', '2', '3', '4', '5', '6', '7',
   '8', '9', '+', '/']

/-- The RFC 4648 §5 url-safe alphabet shared by both `URL_SAFE` configs. -/
def url_safe_character_set : List Char :=
  ['A', 'B', 'C', 'D', 'E', 'F', 'G', 'H', 'I', 'J', 'K', 'L', 'M', 'N', 'O',
   'P', 'Q', 'R', 'S', 'T', 'U', 'V', 'W', 'X', 'Y', 'Z', 'a', 'b', 'c', 'd',
   'e', 'f', 'g', 'h', 'i', 'j', 'k', 'l', 'm', 'n', 'o', 'p', 'q', 'r', 's',
   't', 'u', 'v', 'w', 'x', 'y', 'z', '0', '1', '2', '3', '4', '5', '6', '7',
   '8', '9', '-', '_']

/-- The RFC 3501 IMAP alphabet (`,` as 64th symbol). -/
def imap_character_set : List Char :=
  ['A', 'B', 'C', 'D', 'E', 'F', 'G', 'H', 'I', 'J', 'K', 'L', 'M', 'N', 'O',
   'P', 'Q', 'R', 'S', 'T', 'U', 'V', 'W', 'X', 'Y', 'Z', 'a', 'b', 'c', 'd',
   'e', 'f', 'g', 'h', 'i', 'j', 'k', 'l', 'm', 'n', 'o', 'p', 'q', 'r', 's',
   't', 'u', 'v', 'w', 'x', 'y', 'z', '0', '1', '2', '3', '4', '5', '6', '7',
   '8', '9', '+', ',']

/-- src/config.rs `STANDARD`. -/
def STANDARD : Config :=
  { character_set := standard_character_set, pad := some '=', line_length := none }

/-- src/config.rs `MIME`. -/
def MIME : Config :=
  { character_set := standard_character_set, pad := some '=', line_length := some 76 }

/-- src/config.rs `IMAP`. -/
def IMAP : Config :=
  { character_set := imap_character_set, pad := none, line_length := none }

/-- src/config.rs `URL_SAFE_PADDING`. -/
def URL_SAFE_PADDING : Config :=
  { character_set := url_safe_character_set, pad := some '=', line_length := none }

/-- src/config.rs `URL_SAFE_NO_PADDING`. -/
def URL_SAFE_NO_PADDING : Config :=
  { character_set := url_safe_character_set, pad := none, line_length := none }

/-- src/lib.rs `Base64`: a value (list of characters) plus its config.  The
Rust borrowed reference to the config is modelled by embedding the config. -/
structure Base64 where
  value : List Char
  conf : Config
deriving DecidableEq, Repr

/-- src/lib.rs `decimal_to_base64_char`: `a[value as usize]`.  All call sites
index with a value below 64 into a 64-character set; the out-of-range case
(a Rust panic) is mapped to a default character. -/
def decimal_to_base64_char (a : List Char) (value : Nat) : Char :=
  a.getD value (Char.ofNat 0)

/-- src/lib.rs `base64_char_to_decimal` scan, mirroring
`for (i, val) in a.iter().enumerate()` with running index `i`. -/
def base64_char_to_decimal_go (c : Char) : List Char → Nat → Nat
  | [], _ => 0
  | x :: xs, i => if c = x then i else base64_char_to_decimal_go c xs (i + 1)

/-- src/lib.rs `base64_char_to_decimal`: first index of `c` in `a`, or 0 when
`c` does not occur (the source's "Not Possible" fallthrough). -/
def base64_char_to_decimal (a : List Char) (c : Char) : Nat :=
  base64_char_to_decimal_go c a 0

/-- src/lib.rs `decimal_to_base64` while-loop body, fuel-indexed: each step
emits the character of `value % 64` (least significant first) and continues
with `value / 64` until the value is 0.  The fuel only bounds the recursion;
`decimal_to_base64` supplies fuel `value`, which is never exhausted. -/
def decimal_to_base64_go (a : List Char) : Nat → Nat → List Char
  | _, 0 => []
  | 0, _ + 1 => []
  | fuel + 1, v + 1 =>
    decimal_to_base64_char a ((v + 1) % 64) :: decimal_to_base64_go a fuel ((v + 1) / 64)

/-- src/lib.rs `decimal_to_base64`: least-significant-first digit characters,
then reversed into most-significant-first order. -/
def decimal_to_base64 (conf : Config) (value : Nat) : List Char :=
  (decimal_to_base64_go conf.character_set value value).reverse

/-- src/lib.rs `Base64::add_padding` while-loop, fuel-indexed: while the
length is not divisible by `m`, push `c`.  The source uses `m = 4` with the
config's pad character; the same loop shape appears in src/encode.rs with
`m = 6`/`m = 24` and in src/decode.rs with `m = 8`.  Fuel `m` always
suffices since at most `m - 1` pushes happen. -/
def pad_go (m : Nat) (c : Char) : Nat → List Char → List Char
  | 0, l => l
  | fuel + 1, l => if l.length % m = 0 then l else pad_go m c fuel (l ++ [c])

/-- src/lib.rs `Base64::add_padding`: if the config has a pad, push it until
the total stored length is divisible by 4 (the raw `Vec` length, counting any
newline or space characters the value holds). -/
def add_padding (conf : Config) (l : List Char) : List Char :=
  match conf.pad with
  | none => l
  | some p => pad_go 4 p 4 l

/-- src/lib.rs `Base64::default()`: literal value `['A']` under `STANDARD`. -/
def Base64.default : Base64 :=
  { value := ['A'], conf := STANDARD }

/-- src/lib.rs `is_valid_base64`: newline, space, the given pad, or a member
of the character set. -/
def is_valid_base64 (pad : Char) (a : List Char) (val : Char) : Bool :=
  val = '\n' || val = ' ' || val = pad || a.contains val

/-- src/lib.rs `Base64::new_from_string` per-character loop: the source
rejects `ch` when `!is_valid_base64('\0', set, ch)` or (pad configured and
`!is_valid_base64(pad, set, ch)`); note the first test uses `'\0'`, not the
configured pad.  On success the characters are kept in order. -/
def new_from_string_collect (conf : Config) : List Char → Except Base64Error (List Char)
  | [] => .ok []
  | ch :: rest =>
    if ! is_valid_base64 (Char.ofNat 0) conf.character_set ch
        || conf.pad.any (fun p => ! is_valid_base64 p conf.character_set ch) then
      .error .InvalidBase64CharacterError
    else
      (new_from_string_collect conf rest).map (fun val => ch :: val)

/-- src/lib.rs `Base64::new_from_string`: validate every character, then
apply the padding policy. -/
def new_from_string (s : List Char) (conf : Config) : Except Base64Error Base64 :=
  (new_from_string_collect conf s).map
    (fun val => { value := add_padding conf val, conf })

/-- src/lib.rs `Base64::set_from_string` per-character loop: accepts `ch` when
(no pad and `is_valid_base64('\0', set, ch)`) or (pad configured and
`is_valid_base64(pad, set, ch)`). -/
def set_from_string_collect (conf : Config) : List Char → Option (List Char)
  | [] => some []
  | ch :: rest =>
    if (conf.pad.isNone && is_valid_base64 (Char.ofNat 0) conf.character_set ch)
        || conf.pad.any (fun p => is_valid_base64 p conf.character_set ch) then
      (set_from_string_collect conf rest).map (fun val => ch :: val)
    else
      none

/-- src/lib.rs `Base64::set_from_string`: on success replace the value and
apply the padding policy, returning `true`; on the first invalid character
return `false` leaving the value unchanged. -/
def set_from_string (b : Base64) (s : List Char) : Bool × Base64 :=
  match set_from_string_collect b.conf s with
  | some val => (true, { b with value := add_padding b.conf val })
  | none => (false, b)

/-- src/lib.rs `Base64::convert_to_new_config` per-character loop. -/
def convert_to_new_config_chars (old new : Config) : List Char → List Char
  | [] => []
  | i :: rest =>
    match old.pad with
    | some op =>
      if i = op then
        match new.pad with
        | some np =>
          if np = op then convert_to_new_config_chars old new rest
          else np :: convert_to_new_config_chars old new rest
        | none => convert_to_new_config_chars old new rest
      else
        decimal_to_base64_char new.character_set
            (base64_char_to_decimal old.character_set i)
          :: convert_to_new_config_chars old new rest
    | none =>
      decimal_to_base64_char new.character_set
          (base64_char_to_decimal old.character_set i)
        :: convert_to_new_config_chars old new rest

/-- src/lib.rs `Base64::set_config`: convert the value, adopt the new config,
reapply the padding policy. -/
def set_config (b : Base64) (conf : Config) : Base64 :=
  { value := add_padding conf (convert_to_new_config_chars b.conf conf b.value),
    conf }

/-- src/lib.rs `Base64::expand_to`: `while self.value.len() < len` push a
literal `'A'` (closed form: append `len - length` copies), then reverse the
WHOLE vector, then apply the padding policy.  The reverse is unconditional:
it happens even when nothing was pushed. -/
def expand_to (b : Base64) (len : Nat) : Base64 :=
  { b with
    value :=
      add_padding b.conf
        ((b.value ++ List.replicate (len - b.value.length) 'A').reverse) }

/-- src/lib.rs `Base64::truncate_to`: when `0 < len < length`, reverse, pop
until the length is `len` (closed form: keep the first `len` of the reversed
vector), reverse back, and reapply the padding policy; otherwise do nothing. -/
def truncate_to (b : Base64) (len : Nat) : Base64 :=
  if 0 < len ∧ len < b.value.length then
    { b with value := add_padding b.conf ((b.value.reverse.take len).reverse) }
  else b

/-- src/lib.rs `Base64::set_random`, with the injected uniform source made
explicit: `rs` is the list of draws from `gen_range(0, 64)`; each is mapped
through the character set exactly as `generate_base64` does, then the padding
policy is applied. -/
def set_random (b : Base64) (rs : List Nat) : Base64 :=
  { b with
    value :=
      add_padding b.conf
        (rs.map (fun r => decimal_to_base64_char b.conf.character_set r)) }

/-- src/lib.rs `Ord for Base64` equal-length scan: positions where either
side is a newline, or where the characters agree, are skipped; the first
remaining position is compared through each side's own alphabet. -/
def base64_cmp_chars (ca cb : List Char) : List Char → List Char → Ordering
  | a :: as', b :: bs' =>
    if a ≠ '\n' ∧ b ≠ '\n' ∧ a ≠ b then
      compare (base64_char_to_decimal ca a) (base64_char_to_decimal cb b)
    else base64_cmp_chars ca cb as' bs'
  | _, _ => .eq

/-- src/lib.rs `Ord for Base64`: shorter sorts first; equal lengths scan. -/
def base64_cmp (x y : Base64) : Ordering :=
  if x.value.length = y.value.length then
    base64_cmp_chars x.conf.character_set y.conf.character_set x.value y.value
  else
    compare x.value.length y.value.length

/-- src/encode.rs `Base64::new_encode_unsigned`: the converted digits for a
positive value, the literal `['A']` for zero, then the padding policy. -/
def new_encode_unsigned (unsigned : Nat) (conf : Config) : Base64 :=
  let b : Base64 :=
    if unsigned > 0 then { value := decimal_to_base64 conf unsigned, conf }
    else { value := ['A'], conf }
  { b with value := add_padding conf b.value }

/-- src/encode.rs `Base64::encode_unsigned` (in-place mutator). -/
def encode_unsigned (b : Base64) (unsigned : Nat) : Base64 :=
  let v := if unsigned > 0 then decimal_to_base64 b.conf unsigned else ['A']
  { b with value := add_padding b.conf v }

/-- src/encode.rs `is_padding`: every character of the 6-character slice is
`'?'`. -/
def is_padding (s : List Char) : Bool :=
  s.all (fun c => c = '?')

/-- src/encode.rs `convert_u8_to_binary_string`: the 8 bits of a byte,
most significant first, as `'0'`/`'1'` characters (`b'0' + bit`). -/
def convert_u8_to_binary_string (value : Nat) : List Char :=
  (List.range 8).reverse.map (fun i => Char.ofNat (48 + (value / 2 ^ i) % 2))

/-- src/encode.rs `convert_bytes_to_binary_string`: concatenate all byte
bits, pad with `'0'` to a multiple of 6, then with `'?'` to a multiple
of 24. -/
def convert_bytes_to_binary_string (s : List Nat) : List Char :=
  let binary := (s.map convert_u8_to_binary_string).flatten
  let b6 := pad_go 6 '0' 6 binary
  pad_go 24 '?' 24 b6

/-- src/encode.rs `convert_6bit_to_u128`: positional value of a bit slice,
`'1'` at index `i` contributing `2 ^ (len - 1 - i)`. -/
def convert_6bit_to_u128 : List Char → Nat
  | [] => 0
  | c :: rest =>
    (if c = '1' then 2 ^ rest.length else 0) + convert_6bit_to_u128 rest

/-- The `step_by(6)` slicing of src/encode.rs, and the `step_by(8)` slicing of
src/decode.rs: cut a list into consecutive `n`-character slices, fuel-indexed
(fuel `l.length` always suffices for `0 < n`). -/
def chunks_go (n : Nat) : Nat → List Char → List (List Char)
  | _, [] => []
  | 0, l => [l]
  | fuel + 1, l => l.take n :: chunks_go n fuel (l.drop n)

/-- Consecutive `n`-slices of `l`. -/
def chunks (n : Nat) (l : List Char) : List (List Char) :=
  chunks_go n l.length l

/-- src/encode.rs `encode_bytes` main loop over 6-bit groups, carrying the
line-length counter `count`.  A padding-only group emits the pad character
when one is configured (`Option.toList` captures the `match` on
`get_padding`, whose `None` arm is `continue`); a data group goes through the
line-length bookkeeping and then emits its character.  Note the counter is
not advanced on the branch that emits a newline. -/
def encode_groups (conf : Config) : Nat → List (List Char) → List Char
  | _, [] => []
  | count, g :: rest =>
    if conf.pad.isSome && is_padding g then
      conf.pad.toList ++ encode_groups conf count rest
    else
      let value := convert_6bit_to_u128 g
      let b64_char := decimal_to_base64_char conf.character_set value
      let ll := conf.line_length.getD 0
      if ll ≠ 0 ∧ count < ll then
        b64_char :: encode_groups conf (count + 1) rest
      else if ll ≠ 0 ∧ count = ll then
        '\n' :: b64_char :: encode_groups conf 0 rest
      else
        b64_char :: encode_groups conf count rest

/-- src/encode.rs `encode_bytes` (free function). -/
def encode_bytes_fn (conf : Config) (s : List Nat) : List Char :=
  encode_groups conf 0 (chunks 6 (convert_bytes_to_binary_string s))

/-- src/encode.rs `Base64::new_encode_bytes`: no trailing padding call; the
pad symbols are emitted inline by `encode_bytes`. -/
def new_encode_bytes (s : List Nat) (conf : Config) : Base64 :=
  { value := encode_bytes_fn conf s, conf }

/-- src/encode.rs `Base64::encode_bytes` (in-place mutator). -/
def encode_bytes (b : Base64) (s : List Nat) : Base64 :=
  { b with value := encode_bytes_fn b.conf s }

/-- Maximum value of a Rust `u128`. -/
def U128_MAX : Nat := 2 ^ 128 - 1

/-- Rust `u128::checked_pow` on 64: the exact power, or `none` past
`u128::MAX`. -/
def checked_pow (b e : Nat) : Option Nat :=
  if b ^ e ≤ U128_MAX then some (b ^ e) else none

/-- Rust `u128::checked_mul`. -/
def checked_mul (a b : Nat) : Option Nat :=
  if a * b ≤ U128_MAX then some (a * b) else none

/-- Rust `u128::checked_add`. -/
def checked_add (a b : Nat) : Option Nat :=
  if a + b ≤ U128_MAX then some (a + b) else none

/-- src/decode.rs `remove_padding`: drop every occurrence of the pad. -/
def remove_padding (pad : Option Char) (v : List Char) : List Char :=
  match pad with
  | some p => v.filter (fun c => c ≠ p)
  | none => v

/-- src/decode.rs `convert_char_to_decimal`: `64.checked_pow(place)` first,
then `checked_mul` with the character's alphabet rank. -/
def convert_char_to_decimal (conf : Config) (val : Char) (place : Nat) :
    Option Nat :=
  match checked_pow 64 place with
  | some value => checked_mul (base64_char_to_decimal conf.character_set val) value
  | none => none

/-- src/decode.rs `Base64::decode_to_unsigned` accumulation loop: the place
of the character at index `i` is `stripped.len() - (i + 1)`, i.e. the length
of the remaining suffix. -/
def decode_to_unsigned_go (conf : Config) : Nat → List Char → Except Base64Error Nat
  | dec, [] => .ok dec
  | dec, ch :: rest =>
    match convert_char_to_decimal conf ch rest.length with
    | some val =>
      match checked_add dec val with
      | some d => decode_to_unsigned_go conf d rest
      | none => .error .OverflowError
    | none => .error .OverflowError

/-- src/decode.rs `Base64::decode_to_unsigned`: strip padding, then
accumulate with checked arithmetic. -/
def decode_to_unsigned (b : Base64) : Except Base64Error Nat :=
  decode_to_unsigned_go b.conf 0 (remove_padding b.conf.pad b.value)

/-- src/decode.rs `convert_decimal_to_binary` division loop, fuel-indexed:
push `v % 2` bits least significant first until `v = 0`. -/
def to_binary_go : Nat → Nat → List Char
  | _, 0 => []
  | 0, _ + 1 => []
  | fuel + 1, v + 1 =>
    (if (v + 1) % 2 = 1 then '1' else '0') :: to_binary_go fuel ((v + 1) / 2)

/-- src/decode.rs `convert_decimal_to_binary`: bits of `value`, padded with
`'0'` up to length 6, then reversed into most-significant-first order. -/
def convert_decimal_to_binary (value : Nat) : List Char :=
  let vec := to_binary_go value value
  (vec ++ List.replicate (6 - vec.length) '0').reverse

/-- src/decode.rs `decode_bytes` first loop: skip pad characters, skip
spaces and newlines, convert everything else to its 6-bit binary string. -/
def decode_bytes_binary (conf : Config) : List Char → List Char
  | [] => []
  | i :: rest =>
    if conf.pad.isSome && conf.pad.any (fun p => i = p) then
      decode_bytes_binary conf rest
    else if i ≠ ' ' ∧ i ≠ '\n' then
      convert_decimal_to_binary (base64_char_to_decimal conf.character_set i)
        ++ decode_bytes_binary conf rest
    else
      decode_bytes_binary conf rest

/-- src/decode.rs `convert_8bit_to_u8`: positional value of an 8-bit slice. -/
def convert_8bit_to_u8 : List Char → Nat
  | [] => 0
  | c :: rest =>
    (if c = '1' then 2 ^ rest.length else 0) + convert_8bit_to_u8 rest

/-- src/decode.rs `is_8bit_all_0s`. -/
def is_8bit_all_0s (s : List Char) : Bool :=
  s.all (fun c => c = '0')

/-- src/decode.rs `decode_bytes`: build the bitstream, pad with `'0'` to a
multiple of 8, then keep every 8-bit group that is not all zeros. -/
def decode_bytes_fn (conf : Config) (s : List Char) : List Nat :=
  let binary := pad_go 8 '0' 8 (decode_bytes_binary conf s)
  (chunks 8 binary).filterMap
    (fun g => if is_8bit_all_0s g then none else some (convert_8bit_to_u8 g))

/-- src/decode.rs `Base64::decode_to_bytes`: the rendered value string is the
value's characters themselves. -/
def decode_to_bytes (b : Base64) : List Nat :=
  decode_bytes_fn b.conf b.value

/-! ### Loop characterisations -/

/-- The fuel-indexed padding loop, given enough fuel, appends exactly
`(m - len % m) % m` copies of `c`: the while-loop reading of `pad_go`. -/
theorem pad_go_eq (m : Nat) (c : Char) (hm : 0 < m) :
    ∀ (fuel : Nat) (l : List Char), (m - l.length % m) % m ≤ fuel →
      pad_go m c fuel l = l ++ List.replicate ((m - l.length % m) % m) c := by
  suffices h : ∀ (k fuel : Nat) (l : List Char), (m - l.length % m) % m = k →
      k ≤ fuel → pad_go m c fuel l = l ++ List.replicate k c by
    intro fuel l hle
    exact h _ fuel l rfl hle
  intro k
  induction k with
  | zero =>
    intro fuel l hk _
    have hr : l.length % m < m := Nat.mod_lt _ hm
    have hz : l.length % m = 0 := by
      by_contra hne
      rw [Nat.mod_eq_of_lt (show m - l.length % m < m by omega)] at hk
      omega
    cases fuel with
    | zero => simp [pad_go]
    | succ f => simp [pad_go, hz]
  | succ k ih =>
    intro fuel l hk hfuel
    have hr : l.length % m < m := Nat.mod_lt _ hm
    have hz : l.length % m ≠ 0 := by
      intro h0
      rw [h0, Nat.sub_zero, Nat.mod_self] at hk
      omega
    have hlt : m - l.length % m < m := by omega
    rw [Nat.mod_eq_of_lt hlt] at hk
    obtain ⟨f, rfl⟩ : ∃ f, fuel = f + 1 := ⟨fuel - 1, by omega⟩
    have hstep : (l ++ [c]).length % m = (l.length % m + 1) % m := by
      simp only [List.length_append, List.length_cons, List.length_nil]
      rw [Nat.add_mod l.length 1 m, Nat.mod_eq_of_lt (show 1 < m by omega)]
    have hnext : (m - (l ++ [c]).length % m) % m = k := by
      rw [hstep]
      rcases Nat.lt_or_ge (l.length % m + 1) m with hlt2 | hge2
      · rw [Nat.mod_eq_of_lt hlt2,
          Nat.mod_eq_of_lt (show m - (l.length % m + 1) < m by omega)]
        omega
      · have heq : l.length % m + 1 = m := by omega
        rw [heq, Nat.mod_self, Nat.sub_zero, Nat.mod_self]
        omega
    rw [pad_go, if_neg hz, ih f (l ++ [c]) hnext (by omega), List.append_assoc]
    congr 1

/-- `add_padding` in closed form. -/
theorem add_padding_eq (conf : Config) (p : Char) (hp : conf.pad = some p)
    (l : List Char) :
    add_padding conf l = l ++ List.replicate ((4 - l.length % 4) % 4) p := by
  have h4 : (4 - l.length % 4) % 4 ≤ 4 := Nat.le_of_lt (Nat.mod_lt _ (by omega))
  simp only [add_padding, hp]
  exact pad_go_eq 4 p (by omega) 4 l h4

/-- When a pad is configured, `add_padding` makes the raw length a multiple
of 4. -/
theorem add_padding_length_mod (conf : Config) (p : Char) (hp : conf.pad = some p)
    (l : List Char) : (add_padding conf l).length % 4 = 0 := by
  rw [add_padding_eq conf p hp l]
  simp only [List.length_append, List.length_replicate]
  omega

/-- When no pad is configured, `add_padding` is the identity. -/
theorem add_padding_none (conf : Config) (hp : conf.pad = none) (l : List Char) :
    add_padding conf l = l := by
  simp [add_padding, hp]

/-- The fueled chunking loop does not depend on the fuel once it covers the
list length (chunk size positive). -/
theorem chunks_go_fuel (n : Nat) (hn : 0 < n) :
    ∀ (fuel₁ : Nat) (l : List Char) (fuel₂ : Nat), l.length ≤ fuel₁ →
      l.length ≤ fuel₂ → chunks_go n fuel₁ l = chunks_go n fuel₂ l := by
  intro fuel₁
  induction fuel₁ with
  | zero =>
    intro l fuel₂ h1 _
    have : l = [] := List.eq_nil_of_length_eq_zero (Nat.le_zero.mp h1)
    subst this
    cases fuel₂ <;> simp [chunks_go]
  | succ fuel ih =>
    intro l fuel₂ h1 h2
    cases l with
    | nil => cases fuel₂ <;> simp [chunks_go]
    | cons x xs =>
      cases fuel₂ with
      | zero => simp at h2
      | succ fuel₂' =>
        simp only [chunks_go]
        congr 1
        have hd : ((x :: xs).drop n).length = (x :: xs).length - n :=
          List.length_drop n (x :: xs)
        apply ih
        · rw [hd]
          simp only [List.length_cons] at h1 ⊢
          omega
        · rw [hd]
          simp only [List.length_cons] at h2 ⊢
          omega

/-- Unfolding `chunks` on a non-empty list. -/
theorem chunks_cons (n : Nat) (hn : 0 < n) (l : List Char) (hl : l ≠ []) :
    chunks n l = l.take n :: chunks n (l.drop n) := by
  unfold chunks
  cases l with
  | nil => exact absurd rfl hl
  | cons x xs =>
    simp only [List.length_cons, chunks_go]
    congr 1
    apply chunks_go_fuel n hn
    · simp only [List.length_drop, List.length_cons]
      omega
    · exact Nat.le_refl _

/-- `chunks` of the empty list. -/
theorem chunks_nil (n : Nat) : chunks n [] = [] := by
  simp [chunks, chunks_go]

/-- Every slice produced by `chunks n` has length at most `n`. -/
theorem chunks_length_le (n : Nat) (hn : 0 < n) (l : List Char) :
    ∀ g ∈ chunks n l, g.length ≤ n := by
  suffices h : ∀ (len : Nat) (l : List Char), l.length ≤ len →
      ∀ g ∈ chunks n l, g.length ≤ n from h l.length l (Nat.le_refl _)
  intro len
  induction len with
  | zero =>
    intro l hl
    have : l = [] := List.eq_nil_of_length_eq_zero (Nat.le_zero.mp hl)
    simp [this, chunks_nil]
  | succ len ih =>
    intro l hl
    cases l with
    | nil => simp [chunks_nil]
    | cons x xs =>
      rw [chunks_cons n hn _ (by simp)]
      intro g hg
      rcases List.mem_cons.mp hg with h | h
      · subst h
        simp only [List.length_take, List.length_cons]
        omega
      · refine ih ((x :: xs).drop n) ?_ g h
        simp only [List.length_drop, List.length_cons] at *
        omega

/-- When the length divides evenly, `chunks n` produces `length / n`
slices. -/
theorem chunks_count (n : Nat) (hn : 0 < n) (l : List Char)
    (hmod : l.length % n = 0) : (chunks n l).length = l.length / n := by
  suffices h : ∀ (len : Nat) (l : List Char), l.length ≤ len →
      l.length % n = 0 → (chunks n l).length = l.length / n from
    h l.length l (Nat.le_refl _) hmod
  intro len
  induction len with
  | zero =>
    intro l hl _
    have : l = [] := List.eq_nil_of_length_eq_zero (Nat.le_zero.mp hl)
    simp [this, chunks_nil]
  | succ len ih =>
    intro l hl hm
    cases l with
    | nil => simp [chunks_nil]
    | cons x xs =>
      rw [chunks_cons n hn _ (by simp)]
      have hge : n ≤ (x :: xs).length := by
        rcases Nat.lt_or_ge (x :: xs).length n with h | h
        · rw [Nat.mod_eq_of_lt h] at hm
          simp only [List.length_cons] at hm h ⊢
          omega
        · exact h
      have hdroplen : ((x :: xs).drop n).length = (x :: xs).length - n :=
        List.length_drop n (x :: xs)
      have hdropmod : ((x :: xs).drop n).length % n = 0 := by
        rw [hdroplen]
        have hdvd : n ∣ ((x :: xs).length - n) :=
          Nat.dvd_sub' (Nat.dvd_of_mod_eq_zero hm) (dvd_refl n)
        obtain ⟨k, hk⟩ := hdvd
        rw [hk]
        exact Nat.mul_mod_right n k
      have hrec := ih ((x :: xs).drop n)
        (by simp only [List.length_drop, List.length_cons] at *; omega)
        hdropmod
      rw [List.length_cons, hrec, hdroplen]
      exact (Nat.div_eq_sub_div hn hge).symm

/-! ### Alphabet lookup lemmas -/

/-- In-bounds `decimal_to_base64_char` is a genuine list access. -/
theorem decimal_to_base64_char_eq_get (a : List Char) (d : Nat)
    (h : d < a.length) : decimal_to_base64_char a d = a.get ⟨d, h⟩ := by
  induction a generalizing d with
  | nil => simp at h
  | cons x xs ih =>
    cases d with
    | zero => rfl
    | succ d' =>
      simp only [decimal_to_base64_char, List.getD_cons_succ, List.get_cons_succ]
      exact ih d' (by simpa using h)

/-- In-bounds `decimal_to_base64_char` lands in the alphabet. -/
theorem decimal_to_base64_char_mem (a : List Char) (d : Nat)
    (h : d < a.length) : decimal_to_base64_char a d ∈ a := by
  rw [decimal_to_base64_char_eq_get a d h]
  exact a.get_mem d h

/-- On a duplicate-free alphabet the index scan recovers the index (with an
arbitrary starting offset). -/
theorem base64_char_to_decimal_go_index (a : List Char) (hnd : a.Nodup)
    (d : Nat) (hd : d < a.length) :
    ∀ i₀ : Nat, base64_char_to_decimal_go (a.get ⟨d, hd⟩) a i₀ = i₀ + d := by
  induction a generalizing d with
  | nil => simp at hd
  | cons x xs ih =>
    intro i₀
    cases d with
    | zero => simp [base64_char_to_decimal_go]
    | succ d' =>
      have hd' : d' < xs.length := by simpa using hd
      have hx : xs.get ⟨d', hd'⟩ ≠ x := by
        intro heq
        exact (List.nodup_cons.mp hnd).1 (heq ▸ xs.get_mem d' hd')
      simp only [List.get_cons_succ, base64_char_to_decimal_go, if_neg hx]
      rw [ih (List.nodup_cons.mp hnd).2 d' hd' (i₀ + 1)]
      omega

/-- On a duplicate-free alphabet, `base64_char_to_decimal` inverts
`decimal_to_base64_char`. -/
theorem base64_char_to_decimal_inverse (a : List Char) (hnd : a.Nodup)
    (d : Nat) (hd : d < a.length) :
    base64_char_to_decimal a (decimal_to_base64_char a d) = d := by
  rw [decimal_to_base64_char_eq_get a d hd]
  unfold base64_char_to_decimal
  rw [base64_char_to_decimal_go_index a hnd d hd 0]
  omega

/-! ### Digit conversion lemmas -/

/-- The fueled division loop of `decimal_to_base64` computes the base-64
digit characters, least significant first, once the fuel covers the value. -/
theorem decimal_to_base64_go_eq (a : List Char) :
    ∀ (v fuel : Nat), v ≤ fuel →
      decimal_to_base64_go a fuel v =
        (Nat.digits 64 v).map (decimal_to_base64_char a) := by
  intro v
  induction v using Nat.strong_induction_on with
  | _ v ih =>
    intro fuel hfuel
    cases v with
    | zero => cases fuel <;> simp [decimal_to_base64_go]
    | succ w =>
      obtain ⟨f, rfl⟩ : ∃ f, fuel = f + 1 := ⟨fuel - 1, by omega⟩
      rw [decimal_to_base64_go,
        Nat.digits_def' (show 1 < 64 by norm_num) (Nat.succ_pos w), List.map_cons]
      congr 1
      have hlt : (w + 1) / 64 < w + 1 := Nat.div_lt_self (Nat.succ_pos w) (by norm_num)
      exact ih _ hlt f (by omega)

/-- `decimal_to_base64` is the reversed digit-character list. -/
theorem decimal_to_base64_eq (conf : Config) (v : Nat) :
    decimal_to_base64 conf v =
      ((Nat.digits 64 v).map (decimal_to_base64_char conf.character_set)).reverse := by
  unfold decimal_to_base64
  rw [decimal_to_base64_go_eq conf.character_set v v (Nat.le_refl v)]

/-- The positional value of a bit slice is below `2 ^ length`. -/
theorem convert_6bit_to_u128_lt (s : List Char) :
    convert_6bit_to_u128 s < 2 ^ s.length := by
  induction s with
  | nil => simp [convert_6bit_to_u128]
  | cons c rest ih =>
    simp only [convert_6bit_to_u128, List.length_cons, pow_succ]
    split <;> omega

/-! ### Padding removal -/

/-- Filtering away `p` kills a `p`-replicate. -/
theorem filter_ne_replicate (p : Char) (k : Nat) :
    (List.replicate k p).filter (fun c => c ≠ p) = [] := by
  induction k with
  | zero => simp
  | succ k ih => simp [List.replicate_succ, ih]

/-- `remove_padding` strips exactly the applied padding when no data
character equals the pad. -/
theorem remove_padding_append_replicate (p : Char) (l : List Char) (k : Nat)
    (hall : ∀ c ∈ l, c ≠ p) :
    remove_padding (some p) (l ++ List.replicate k p) = l := by
  simp only [remove_padding, List.filter_append, filter_ne_replicate,
    List.append_nil]
  exact List.filter_eq_self.mpr (by intro a ha; simpa using hall a ha)

/-! ### u128 bounds -/

/-- `64 ^ 21` fits in a `u128`. -/
theorem pow64_21_le_u128 : 64 ^ 21 ≤ U128_MAX := by norm_num [U128_MAX]

/-- `64 ^ 22` does not fit in a `u128`. -/
theorem pow64_22_gt_u128 : ¬ 64 ^ 22 ≤ U128_MAX := by norm_num [U128_MAX]

/-! ### Decode accumulation -/

/-- The checked accumulation loop of `decode_to_unsigned`, fed the digit
characters of a big-endian digit list `ds` that fits in a `u128`, returns
the starting accumulator plus the positional value of `ds`; every
intermediate checked operation stays in range. -/
theorem decode_to_unsigned_go_ok (conf : Config)
    (hcs : conf.character_set.length = 64) (hnd : conf.character_set.Nodup) :
    ∀ (ds : List Nat) (dec : Nat), (∀ d ∈ ds, d < 64) →
      dec + Nat.ofDigits 64 ds.reverse ≤ U128_MAX →
      (ds = [] ∨ 64 ^ (ds.length - 1) ≤ U128_MAX) →
      decode_to_unsigned_go conf dec
          (ds.map (decimal_to_base64_char conf.character_set)) =
        .ok (dec + Nat.ofDigits 64 ds.reverse) := by
  intro ds
  induction ds with
  | nil =>
    intro dec _ _ _
    simp [decode_to_unsigned_go, Nat.ofDigits_nil]
  | cons d rest ih =>
    intro dec hall hsum hhead
    have hd : d < 64 := hall d (by simp)
    have hT : (Nat.ofDigits 64 (d :: rest).reverse : Nat) =
        Nat.ofDigits 64 rest.reverse + 64 ^ rest.length * d := by
      rw [List.reverse_cons, Nat.ofDigits_append]
      simp [Nat.ofDigits_singleton]
    have hpow : 64 ^ rest.length ≤ U128_MAX := by
      rcases hhead with h | h
      · simp at h
      · simpa using h
    rw [hT] at hsum
    have hmul : d * 64 ^ rest.length ≤ U128_MAX := by
      calc d * 64 ^ rest.length = 64 ^ rest.length * d := Nat.mul_comm _ _
        _ ≤ Nat.ofDigits 64 rest.reverse + 64 ^ rest.length * d :=
            Nat.le_add_left _ _
        _ ≤ dec + (Nat.ofDigits 64 rest.reverse + 64 ^ rest.length * d) :=
            Nat.le_add_left _ _
        _ ≤ U128_MAX := by rw [← Nat.add_assoc] at hsum ⊢; exact hsum
    have hadd : dec + d * 64 ^ rest.length ≤ U128_MAX := by
      have h1 : dec + d * 64 ^ rest.length ≤
          dec + (Nat.ofDigits 64 rest.reverse + 64 ^ rest.length * d) := by
        rw [Nat.mul_comm d]
        exact Nat.add_le_add_left (Nat.le_add_left _ _) dec
      exact le_trans h1 hsum
    have hrank : base64_char_to_decimal conf.character_set
        (decimal_to_base64_char conf.character_set d) = d :=
      base64_char_to_decimal_inverse conf.character_set hnd d (by omega)
    have hcc : convert_char_to_decimal conf
        (decimal_to_base64_char conf.character_set d) rest.length =
        some (d * 64 ^ rest.length) := by
      simp only [convert_char_to_decimal, checked_pow, if_pos hpow, checked_mul,
        hrank, if_pos hmul]
    have hca : checked_add dec (d * 64 ^ rest.length) =
        some (dec + d * 64 ^ rest.length) := by
      simp only [checked_add, if_pos hadd]
    have hrec := ih (dec + d * 64 ^ rest.length)
      (fun x hx => hall x (by simp [hx]))
      (by rw [Nat.add_assoc, Nat.add_comm (d * 64 ^ rest.length),
        Nat.mul_comm d] at *; exact hsum)
      (by
        rcases rest.eq_nil_or_concat with h | _
        · exact Or.inl h
        · exact Or.inr (le_trans
            (Nat.pow_le_pow_right (by norm_num) (Nat.sub_le _ _)) hpow))
    simp only [List.map_cons, decode_to_unsigned_go, List.length_map, hcc, hca,
      hrec, hT]
    congr 1
    ring

/-- For any config with a 64-character duplicate-free alphabet whose pad (if
any) lies outside the alphabet and whose alphabet ranks `'A'` at 0 (while
containing `'A'`), encoding a `u128` and decoding it back is the identity. -/
theorem roundtrip_unsigned_generic (conf : Config)
    (hcs : conf.character_set.length = 64) (hnd : conf.character_set.Nodup)
    (hpadmem : ∀ p, conf.pad = some p → p ∉ conf.character_set)
    (hA : base64_char_to_decimal conf.character_set 'A' = 0)
    (hAmem : 'A' ∈ conf.character_set)
    (v : Nat) (hv : v ≤ U128_MAX) :
    decode_to_unsigned (new_encode_unsigned v conf) = .ok v := by
  have hstrip : ∀ (l : List Char), (∀ c ∈ l, c ∈ conf.character_set) →
      remove_padding conf.pad (add_padding conf l) = l := by
    intro l hl
    cases hpad : conf.pad with
    | none => rw [add_padding_none conf hpad, remove_padding]
    | some p =>
      rw [add_padding_eq conf p hpad]
      exact remove_padding_append_replicate p l _
        (fun c hc heq => hpadmem p hpad (heq ▸ hl c hc))
  by_cases hv0 : v = 0
  · subst hv0
    have henc : (new_encode_unsigned 0 conf).value = add_padding conf ['A'] := by
      simp [new_encode_unsigned]
    have hone : (1 : Nat) ≤ U128_MAX := by norm_num [U128_MAX]
    have hconf : (new_encode_unsigned 0 conf).conf = conf := by
      simp [new_encode_unsigned]
    rw [decode_to_unsigned, henc, hconf, hstrip ['A'] (by simpa using hAmem)]
    simp only [decode_to_unsigned_go, List.length_nil, convert_char_to_decimal,
      checked_pow, pow_zero, if_pos hone, checked_mul, hA, checked_add]
    norm_num [U128_MAX]
  · have hvpos : 0 < v := Nat.pos_of_ne_zero hv0
    have henc : (new_encode_unsigned v conf).value =
        add_padding conf
          (((Nat.digits 64 v).map
            (decimal_to_base64_char conf.character_set)).reverse) := by
      simp [new_encode_unsigned, hvpos, decimal_to_base64_eq]
    have hmem_all : ∀ c ∈ ((Nat.digits 64 v).map
        (decimal_to_base64_char conf.character_set)).reverse,
        c ∈ conf.character_set := by
      intro c hc
      rw [List.mem_reverse, List.mem_map] at hc
      obtain ⟨d, hdmem, rfl⟩ := hc
      have : d < 64 := Nat.digits_lt_base (by norm_num) hdmem
      exact decimal_to_base64_char_mem _ d (by omega)
    have hlen22 : (Nat.digits 64 v).length ≤ 22 := by
      have hvlt : v < 64 ^ 22 := by
        calc v ≤ U128_MAX := hv
          _ < 64 ^ 22 := by norm_num [U128_MAX]
      have hlog : Nat.log 64 v < 22 :=
        (Nat.lt_pow_iff_log_lt (by norm_num) hv0).mp hvlt
      rw [Nat.digits_len 64 v (by norm_num) hv0]
      omega
    have hrev : ((Nat.digits 64 v).map
        (decimal_to_base64_char conf.character_set)).reverse =
        ((Nat.digits 64 v).reverse).map
          (decimal_to_base64_char conf.character_set) := by
      rw [List.map_reverse]
    have hconf : (new_encode_unsigned v conf).conf = conf := by
      simp only [new_encode_unsigned]
      split <;> rfl
    rw [decode_to_unsigned, henc, hconf, hstrip _ hmem_all, hrev]
    have := decode_to_unsigned_go_ok conf hcs hnd (Nat.digits 64 v).reverse 0
      (by
        intro d hd
        rw [List.mem_reverse] at hd
        exact Nat.digits_lt_base (by norm_num) hd)
      (by
        rw [List.reverse_reverse, Nat.ofDigits_digits]
        omega)
      (by
        right
        calc (64 : Nat) ^ ((Nat.digits 64 v).reverse.length - 1)
            ≤ 64 ^ 21 := by
              apply Nat.pow_le_pow_right (by norm_num)
              rw [List.length_reverse]
              omega
          _ ≤ U128_MAX := pow64_21_le_u128)
    rw [this, List.reverse_reverse, Nat.ofDigits_digits]
    rw [Nat.zero_add]

/-! ### Claim C2 -/

/-- C2: for every `u128` value `v` and every canonical config,
`decode_to_unsigned` applied to the result of `new_encode_unsigned v cfg`
returns `ok v`; the checked accumulation never overflows for a symbol
sequence produced by a successful encode of a value that fits in 128 bits. -/
theorem C2_decode_encode_unsigned_roundtrip :
    ∀ cfg ∈ [STANDARD, MIME, IMAP, URL_SAFE_PADDING, URL_SAFE_NO_PADDING],
      ∀ v : Nat, v ≤ U128_MAX →
        decode_to_unsigned (new_encode_unsigned v cfg) = .ok v := by
  intro cfg hcfg v hv
  simp only [List.mem_cons, List.not_mem_nil, or_false] at hcfg
  rcases hcfg with rfl | rfl | rfl | rfl | rfl
  · exact roundtrip_unsigned_generic STANDARD (by decide) (by decide)
      (fun p hp => by injection hp with h; subst h; decide) (by decide)
      (by decide) v hv
  · exact roundtrip_unsigned_generic MIME (by decide) (by decide)
      (fun p hp => by injection hp with h; subst h; decide) (by decide)
      (by decide) v hv
  · exact roundtrip_unsigned_generic IMAP (by decide) (by decide)
      (fun p hp => by cases hp) (by decide) (by decide) v hv
  · exact roundtrip_unsigned_generic URL_SAFE_PADDING (by decide) (by decide)
      (fun p hp => by injection hp with h; subst h; decide) (by decide)
      (by decide) v hv
  · exact roundtrip_unsigned_generic URL_SAFE_NO_PADDING (by decide) (by decide)
      (fun p hp => by cases hp) (by decide) (by decide) v hv

/-- Witness for C2 at the concrete input `v = 65538`, `cfg = STANDARD`. -/
theorem C2_decode_encode_unsigned_roundtrip_witness :
    decode_to_unsigned (new_encode_unsigned 65538 STANDARD) = .ok 65538 :=
  C2_decode_encode_unsigned_roundtrip STANDARD (by simp) 65538
    (by norm_num [U128_MAX])

/-! ### Claim C10 -/

/-- C10: whenever the symbol sequence still holds 23 or more characters
after the pad symbol is stripped, `decode_to_unsigned` returns
`OverflowError` — regardless of which characters they are, because
`64.checked_pow(place)` is computed before the digit multiplication and
`64 ^ 22` already exceeds `u128::MAX`. -/
theorem C10_decode_unsigned_overflow_at_23 (b : Base64)
    (h : 23 ≤ (remove_padding b.conf.pad b.value).length) :
    decode_to_unsigned b = .error .OverflowError := by
  rw [decode_to_unsigned]
  cases hl : remove_padding b.conf.pad b.value with
  | nil => rw [hl] at h; simp at h
  | cons ch rest =>
    have hrl : 22 ≤ rest.length := by
      rw [hl] at h
      simp only [List.length_cons] at h
      omega
    have hpow : ¬ 64 ^ rest.length ≤ U128_MAX := by
      intro hle
      exact pow64_22_gt_u128
        (le_trans (Nat.pow_le_pow_right (by norm_num) hrl) hle)
    simp [decode_to_unsigned_go, convert_char_to_decimal, checked_pow, hpow]

/-- Witness for C10: 23 zero symbols under `STANDARD` overflow, although the
mathematical value is 0. -/
theorem C10_decode_unsigned_overflow_at_23_witness :
    decode_to_unsigned { value := List.replicate 23 'A', conf := STANDARD } =
      .error .OverflowError :=
  C10_decode_unsigned_overflow_at_23
    { value := List.replicate 23 'A', conf := STANDARD } (by decide)

/-! ### Claim C1 -/

/-- C1 (code bug): the byte round trip drops genuine `0x00` data bytes.
Encoding the byte sequence `[0x00]` under `STANDARD` yields the symbols
`"AA=="`, but `decode_to_bytes` returns the empty byte sequence, because the
decoder discards every all-zero 8-bit group, not only the padding remainder.
The same happens to an interior zero byte in `[0x41, 0x00, 0x41]`. -/
theorem C1_decode_encode_drops_zero_bytes :
    (new_encode_bytes [0] STANDARD).value = ['A', 'A', '=', '=']
      ∧ decode_to_bytes (new_encode_bytes [0] STANDARD) = []
      ∧ decode_to_bytes (new_encode_bytes [65, 0, 65] STANDARD) = [65, 65] := by
  refine ⟨by decide, by decide, by decide⟩

/-! ### Claim C3 -/

/-- C3 (code bug): `new_from_string` rejects the config's own pad symbol.
The first validity test is made with `'\0'` in place of the pad, so on
`"A="` under `STANDARD` (pad `'='`) the `'='` fails it and the constructor
returns `InvalidBase64CharacterError`, while the sibling mutator
`set_from_string` accepts the same string. -/
theorem C3_new_from_string_rejects_pad :
    new_from_string ['A', '='] STANDARD = .error .InvalidBase64CharacterError
      ∧ (set_from_string Base64.default ['A', '=']).1 = true := by
  refine ⟨by rfl, by decide⟩

/-! ### Claim C6 -/

/-- C6 (code bug): `set_padding` has an inverted representability test.  On
`URL_SAFE_NO_PADDING` (so `'='` is unique) the call `set_padding (some '=')`
returns `PaddingUnrepresentableCharacter` although `'='` is representable and
`Config::new` accepts the very same combination. -/
theorem C6_set_padding_inverted_check :
    Config.set_padding URL_SAFE_NO_PADDING (some '=') =
        .error .PaddingUnrepresentableCharacter
      ∧ is_representable '=' = true
      ∧ Config.new url_safe_character_set (some '=') none =
          .ok URL_SAFE_PADDING := by
  refine ⟨by rfl, by decide, by rfl⟩

/-! ### Claim C7 -/

/-- C7 (code bug): `expand_to` appends literal `'A'`s and then reverses the
whole vector, so the pre-existing symbols come out reversed and even the
at-or-above-length case mutates the value.  From `"BA"` (the encoding of 64
under `URL_SAFE_NO_PADDING`), `expand_to 3` yields `"AAB"` — not the
documented prepending result `"ABA"` — and `expand_to 0`, documented as a
no-op, yields `"AB"`. -/
theorem C7_expand_to_reverses_value :
    (new_encode_unsigned 64 URL_SAFE_NO_PADDING).value = ['B', 'A']
      ∧ (expand_to (new_encode_unsigned 64 URL_SAFE_NO_PADDING) 3).value =
          ['A', 'A', 'B']
      ∧ (expand_to (new_encode_unsigned 64 URL_SAFE_NO_PADDING) 0).value =
          ['A', 'B'] := by
  refine ⟨by decide, by decide, by decide⟩

/-! ### Claim C5 -/

/-- C5 counterexample: under the padded canonical config `STANDARD`,
63 encodes to `"/==="` and 64 to `"BA=="`; both have length 4, the first
position compares rank 63 against rank 1, and the encoding of 63 sorts
GREATER than the encoding of 64 although `63 < 64`.  So the order does not
agree with the integer order for every canonical config. -/
theorem C5_ordering_pad_counterexample :
    base64_cmp (new_encode_unsigned 63 STANDARD)
        (new_encode_unsigned 64 STANDARD) = .gt
      ∧ (63 : Nat) < 64 := by
  refine ⟨by decide, by decide⟩

/-- C5 amended: for the canonical configs WITHOUT a pad symbol (`IMAP` and
`URL_SAFE_NO_PADDING`), encoding is order-preserving on the representative
values `{0, 1, 63, 64, 65538}`: the Base64 total order ranks
`new_encode_unsigned a cfg` below `new_encode_unsigned b cfg` exactly when
`a < b`.  (For the padded configs this fails, see the counterexample.) -/
theorem C5_ordering_encode_unsigned_no_pad :
    ∀ cfg ∈ [IMAP, URL_SAFE_NO_PADDING],
      ∀ a ∈ [0, 1, 63, 64, 65538], ∀ b ∈ [0, 1, 63, 64, 65538],
        (base64_cmp (new_encode_unsigned a cfg) (new_encode_unsigned b cfg) =
            .lt ↔ a < b) := by
  decide

/-- Witness for C5 at `cfg = IMAP`, `a = 1`, `b = 63`. -/
theorem C5_ordering_encode_unsigned_no_pad_witness :
    base64_cmp (new_encode_unsigned 1 IMAP) (new_encode_unsigned 63 IMAP) =
        .lt ↔ (1 : Nat) < 63 :=
  C5_ordering_encode_unsigned_no_pad IMAP (by decide) 1 (by decide) 63
    (by decide)

/-! ### Claim C8 -/

/-- C8 counterexample: a valid config whose `symbols[0]` is not `'A'` (the
reversed standard alphabet, accepted by `Config::new`) still encodes 0 as the
literal `'A'`, not as its own first symbol `'/'`. -/
theorem C8_encode_zero_counterexample :
    Config.new standard_character_set.reverse none none =
        .ok { character_set := standard_character_set.reverse, pad := none,
              line_length := none }
      ∧ (new_encode_unsigned 0
          { character_set := standard_character_set.reverse, pad := none,
            line_length := none }).value = ['A']
      ∧ standard_character_set.reverse.headD 'A' = '/'
      ∧ ('A' : Char) ≠ '/' := by
  refine ⟨by rfl, by decide, by decide, by decide⟩

/-- C8 amended: `new_encode_unsigned 0 cfg` (and the mutator
`encode_unsigned` at 0) sets the pre-padding value to the single LITERAL
character `'A'` for every config; this coincides with `symbols[0]` for the
five canonical configs, whose first symbol is `'A'`, but not for an
arbitrary valid config. -/
theorem C8_encode_zero_literal_A :
    (∀ cfg : Config, (new_encode_unsigned 0 cfg).value = add_padding cfg ['A'])
      ∧ (∀ b : Base64, (encode_unsigned b 0).value = add_padding b.conf ['A'])
      ∧ STANDARD.character_set.headD ' ' = 'A'
      ∧ MIME.character_set.headD ' ' = 'A'
      ∧ IMAP.character_set.headD ' ' = 'A'
      ∧ URL_SAFE_PADDING.character_set.headD ' ' = 'A'
      ∧ URL_SAFE_NO_PADDING.character_set.headD ' ' = 'A' := by
  refine ⟨fun cfg => by simp [new_encode_unsigned],
    fun b => by simp [encode_unsigned],
    by decide, by decide, by decide, by decide, by decide⟩

/-! ### Claim C9 -/

/-- C9 counterexample: `U+1000D` has code point `65549 > 31`, is not 127,
not the space character, and is not a control character, yet
`is_representable` rejects it, because the source truncates the code point
with `c as u16` (65549 mod 65536 = 13 ≤ 31) before comparing. -/
theorem C9_is_representable_counterexample :
    is_representable (Char.ofNat 65549) = false
      ∧ 31 < (Char.ofNat 65549).toNat
      ∧ (Char.ofNat 65549).toNat ≠ 127
      ∧ (Char.ofNat 65549).toNat ≠ 32
      ∧ char_is_control (Char.ofNat 65549) = false := by
  refine ⟨by decide, by decide, by decide, by decide, by decide⟩

/-- C9 amended: `is_representable` accepts `c` iff the code point TRUNCATED
TO 16 BITS is greater than 31, is not 127, is not 32 (space), and `c` itself
is not a Unicode control character; hence code points above `U+FFFF` whose
low 16 bits fall in the excluded set are rejected. -/
theorem C9_is_representable_truncated (c : Char) :
    is_representable c = true ↔
      (31 < c.toNat % 65536 ∧ c.toNat % 65536 ≠ 127 ∧ c.toNat % 65536 ≠ 32 ∧
        ¬ (c.toNat < 32 ∨ (127 ≤ c.toNat ∧ c.toNat ≤ 159))) := by
  simp only [is_representable, char_is_control, Bool.and_eq_true,
    decide_eq_true_eq, Bool.not_eq_true', Bool.or_eq_false_iff,
    decide_eq_false_iff_not, not_lt, gt_iff_lt, Bool.and_eq_false_iff,
    not_or, not_and, not_le]
  omega

/-! ### Claim C4 -/

/-- C4 counterexample: `set_from_string` accepts `"AB\n"` under `STANDARD`
(newlines are valid input characters), and `add_padding` counts the raw
vector length INCLUDING the newline, so it stops at `['A','B','\n','=']`:
only 3 symbols remain once line breaks are excluded — not a multiple of 4. -/
theorem C4_padding_invariant_counterexample :
    (set_from_string Base64.default ['A', 'B', '\n']).1 = true
      ∧ (set_from_string Base64.default ['A', 'B', '\n']).2.value =
          ['A', 'B', '\n', '=']
      ∧ ((set_from_string Base64.default ['A', 'B', '\n']).2.value.filter
          (fun c => c ≠ '\n')).length % 4 = 3 := by
  refine ⟨by decide, by decide, by decide⟩

/-- The bitstream built by `convert_bytes_to_binary_string` always has length
divisible by 24. -/
theorem convert_bytes_to_binary_string_mod24 (s : List Nat) :
    (convert_bytes_to_binary_string s).length % 24 = 0 := by
  unfold convert_bytes_to_binary_string
  have h24 : ∀ l : List Char, (pad_go 24 '?' 24 l).length % 24 = 0 := by
    intro l
    rw [pad_go_eq 24 '?' (by omega) 24 l
      (Nat.le_of_lt (Nat.mod_lt _ (by omega)))]
    simp only [List.length_append, List.length_replicate]
    omega
  exact h24 _

/-- Each 6-bit group contributes exactly one non-newline character to the
output of `encode_groups` under a pad-configured alphabet that does not
contain the newline. -/
theorem encode_groups_filter_length (conf : Config) (p : Char)
    (hp : conf.pad = some p) (hpn : p ≠ '\n')
    (hcs : conf.character_set.length = 64)
    (hnl : '\n' ∉ conf.character_set) :
    ∀ (gs : List (List Char)) (count : Nat), (∀ g ∈ gs, g.length ≤ 6) →
      ((encode_groups conf count gs).filter (fun c => c ≠ '\n')).length =
        gs.length := by
  intro gs
  induction gs with
  | nil => intro count _; simp [encode_groups]
  | cons g rest ih =>
    intro count hlen
    have hg6 : g.length ≤ 6 := hlen g (List.mem_cons_self g rest)
    have hrest : ∀ g' ∈ rest, g'.length ≤ 6 :=
      fun g' h => hlen g' (List.mem_cons_of_mem _ h)
    have hdata : decimal_to_base64_char conf.character_set
        (convert_6bit_to_u128 g) ≠ '\n' := by
      intro heq
      apply hnl
      rw [← heq]
      apply decimal_to_base64_char_mem
      rw [hcs]
      calc convert_6bit_to_u128 g < 2 ^ g.length := convert_6bit_to_u128_lt g
        _ ≤ 2 ^ 6 := Nat.pow_le_pow_right (by norm_num) hg6
        _ = 64 := by norm_num
    simp only [encode_groups]
    by_cases hpad : (conf.pad.isSome && is_padding g) = true
    · rw [if_pos hpad, hp]
      simp only [Option.toList_some, List.singleton_append]
      rw [List.filter_cons_of_pos (by simpa using hpn)]
      rw [List.length_cons, ih count hrest, List.length_cons]
    · rw [if_neg hpad]
      by_cases h1 : conf.line_length.getD 0 ≠ 0 ∧
          count < conf.line_length.getD 0
      · rw [if_pos h1, List.filter_cons_of_pos (by simpa using hdata)]
        rw [List.length_cons, ih (count + 1) hrest, List.length_cons]
      · rw [if_neg h1]
        by_cases h2 : conf.line_length.getD 0 ≠ 0 ∧
            count = conf.line_length.getD 0
        · rw [if_pos h2, List.filter_cons_of_neg (by simp),
            List.filter_cons_of_pos (by simpa using hdata)]
          rw [List.length_cons, ih 0 hrest, List.length_cons]
        · rw [if_neg h2, List.filter_cons_of_pos (by simpa using hdata)]
          rw [List.length_cons, ih count hrest, List.length_cons]

/-- After `encode_bytes`, the number of stored characters excluding inserted
line breaks is a multiple of 4 whenever a pad is configured. -/
theorem encode_bytes_filter_mod4 (conf : Config) (p : Char)
    (hp : conf.pad = some p) (hpn : p ≠ '\n')
    (hcs : conf.character_set.length = 64)
    (hnl : '\n' ∉ conf.character_set) (s : List Nat) :
    ((encode_bytes_fn conf s).filter (fun c => c ≠ '\n')).length % 4 = 0 := by
  unfold encode_bytes_fn
  rw [encode_groups_filter_length conf p hp hpn hcs hnl _ 0
    (chunks_length_le 6 (by omega) _)]
  have hm := convert_bytes_to_binary_string_mod24 s
  rw [chunks_count 6 (by omega) _ (by omega)]
  omega

/-- C4 amended: when the config has a pad symbol, every public mutator that
finishes by applying the padding policy (`encode_unsigned`,
`set_from_string` returning `true`, `set_random`, `set_config`, `expand_to`,
and `truncate_to` when it truncates) leaves the TOTAL stored character count
— counting any newline or space characters the value holds — a multiple
of 4; `encode_bytes` instead guarantees that the count EXCLUDING inserted
line breaks is a multiple of 4.  The count excluding line breaks is NOT
always a multiple of 4 after `set_from_string` when the input string itself
contains newlines (see the counterexample). -/
theorem C4_padding_invariant_amended (b : Base64) (p : Char)
    (hp : b.conf.pad = some p) :
    (∀ v, (encode_unsigned b v).value.length % 4 = 0)
      ∧ (∀ s b', set_from_string b s = (true, b') →
          b'.value.length % 4 = 0)
      ∧ (∀ rs, (set_random b rs).value.length % 4 = 0)
      ∧ (∀ n, (expand_to b n).value.length % 4 = 0)
      ∧ (∀ n, 0 < n → n < b.value.length →
          (truncate_to b n).value.length % 4 = 0)
      ∧ (∀ (b2 : Base64) (cfg2 : Config) (q : Char), cfg2.pad = some q →
          (set_config b2 cfg2).value.length % 4 = 0)
      ∧ (p ≠ '\n' → b.conf.character_set.length = 64 →
          '\n' ∉ b.conf.character_set → ∀ s : List Nat,
            ((encode_bytes b s).value.filter
              (fun c => c ≠ '\n')).length % 4 = 0) := by
  refine ⟨?_, ?_, ?_, ?_, ?_, ?_, ?_⟩
  · intro v
    exact add_padding_length_mod b.conf p hp _
  · intro s b' hsb
    unfold set_from_string at hsb
    cases hcol : set_from_string_collect b.conf s with
    | none => rw [hcol] at hsb; simp at hsb
    | some val =>
      rw [hcol] at hsb
      simp only [Prod.mk.injEq] at hsb
      rw [← hsb.2]
      exact add_padding_length_mod b.conf p hp _
  · intro rs
    exact add_padding_length_mod b.conf p hp _
  · intro n
    exact add_padding_length_mod b.conf p hp _
  · intro n hn hlt
    unfold truncate_to
    rw [if_pos ⟨hn, hlt⟩]
    exact add_padding_length_mod b.conf p hp _
  · intro b2 cfg2 q hq
    exact add_padding_length_mod cfg2 q hq _
  · intro hpn hcs hnl s
    exact encode_bytes_filter_mod4 b.conf p hp hpn hcs hnl s

/-- Witness for C4 at `Base64.default` (pad `'='`): exercising the
`encode_unsigned` and `encode_bytes` conjuncts at concrete inputs. -/
theorem C4_padding_invariant_amended_witness :
    (encode_unsigned Base64.default 5).value.length % 4 = 0
      ∧ ((encode_bytes Base64.default [72, 105]).value.filter
          (fun c => c ≠ '\n')).length % 4 = 0 :=
  ⟨(C4_padding_invariant_amended Base64.default '=' rfl).1 5,
    (C4_padding_invariant_amended Base64.default '=' rfl).2.2.2.2.2.2
      (by decide) (by decide) (by decide) [72, 105]⟩

end LB64
